import Mathlib

/-!
Verification development for the ADGM compliance-review pipeline.

The definitions below are a shallow embedding of the original Python source
(`code.py`): the keyword classifier, the robust JSON extraction, the reviewer
post-processing, the inline docx annotator, the checklist audit and the
orchestrator's aggregation loop.  Python strings are modelled as Lean
`String`s (lower-casing is modelled per character, i.e. on the ASCII range);
Python dicts holding parsed JSON are association lists; code that can raise a
Python exception is modelled with `Option`, `none` standing for an unhandled
exception.  `json.loads` from the Python standard library is modelled by the
executable parser `jsonParse`.
-/

set_option linter.unusedVariables false

/-- The literal open-brace character. -/
def lbrace : Char := '\x7b'

/-- The literal close-brace character. -/
def rbrace : Char := '\x7d'

/-- `listStarts needle hay` holds when `needle` is an initial segment of `hay`. -/
def listStarts : List Char → List Char → Bool
  | [], _ => true
  | _ :: _, [] => false
  | a :: as, b :: bs => a == b && listStarts as bs

/-- `containsSub needle hay`: does `needle` occur contiguously anywhere in `hay`?
Models the Python substring test `needle in hay`. -/
def containsSub (needle : List Char) : List Char → Bool
  | [] => needle.isEmpty
  | c :: t => listStarts needle (c :: t) || containsSub needle t

/-- Python `needle in hay` on strings. -/
def strContains (hay needle : String) : Bool :=
  containsSub needle.data hay.data

/-- Python `s.lower()`, modelled per character (ASCII case mapping). -/
def pyLower (s : String) : String :=
  String.mk (s.data.map Char.toLower)

/-- Python `s[:n]` on a string. -/
def strTake (n : Nat) (s : String) : String :=
  String.mk (s.data.take n)

/-- Concatenation of a list of strings (Python `"".join`). -/
def strConcat : List String → String
  | [] => ""
  | s :: rest => s ++ strConcat rest

/-- JSON values, the possible results of Python `json.loads`. -/
inductive JsonValue where
  | str (s : String)
  | num (n : Int)
  | bool (b : Bool)
  | null
  | arr (xs : List JsonValue)
  | obj (fields : List (String × JsonValue))

/-- A parsed JSON object as held in a Python dict. -/
abbrev Jdict := List (String × JsonValue)

/-- Python `d.get(k)`: `none` models Python `None` (key absent). -/
def dget? (d : Jdict) (k : String) : Option JsonValue :=
  (d.find? (fun pr => pr.1 == k)).map (fun pr => pr.2)

/-- Python `j.get(k)` on a value of unknown shape: `.get` only exists on dicts. -/
def jget (j : JsonValue) (k : String) : Option JsonValue :=
  match j with
  | .obj d => dget? d k
  | _ => none

/-- Python truthiness of a JSON value (`if not parsed: ...`). -/
def jsonTruthy : JsonValue → Bool
  | .str s => !(s == "")
  | .num n => !(n == 0)
  | .bool b => b
  | .null => false
  | .arr xs => !xs.isEmpty
  | .obj fs => !fs.isEmpty

/-- JSON insignificant whitespace. -/
def isWs (c : Char) : Bool :=
  c == ' ' || c == '\n' || c == '\t' || c == '\r'

/-- Drop leading JSON whitespace. -/
def skipWs : List Char → List Char
  | [] => []
  | c :: rest => if isWs c then skipWs rest else c :: rest

/-- Parse the body of a JSON string literal (the opening quote already
consumed), returning the decoded characters and the rest of the input. -/
def parseStrChars : List Char → Option (List Char × List Char)
  | [] => none
  | c :: rest =>
    if c = '\"' then some ([], rest)
    else if c = '\\' then
      match rest with
      | [] => none
      | e :: rest' =>
        let ec := if e = 'n' then '\n' else if e = 't' then '\t'
                  else if e = 'r' then '\r' else e
        match parseStrChars rest' with
        | some (cs, rem) => some (ec :: cs, rem)
        | none => none
    else
      match parseStrChars rest with
      | some (cs, rem) => some (c :: cs, rem)
      | none => none

/-- Consume an expected literal run of characters. -/
def dropLit : List Char → List Char → Option (List Char)
  | [], cs => some cs
  | _ :: _, [] => none
  | l :: ls, c :: cs => if c = l then dropLit ls cs else none

/-- Split a leading run of decimal digits off the input. -/
def takeDigits : List Char → List Char × List Char
  | [] => ([], [])
  | c :: cs =>
    if c.isDigit then
      let r := takeDigits cs
      (c :: r.1, r.2)
    else ([], c :: cs)

/-- Numeric value of a run of decimal digits. -/
def digitsVal (ds : List Char) : Nat :=
  ds.foldl (fun n c => n * 10 + (c.toNat - 48)) 0

mutual

/-- Fuel-bounded JSON value parser (model of the grammar accepted by
`json.loads`); returns the value and the unconsumed rest. -/
def parseV : Nat → List Char → Option (JsonValue × List Char)
  | 0, _ => none
  | fuel+1, cs =>
    match skipWs cs with
    | [] => none
    | c :: rest =>
      if c = '\"' then
        match parseStrChars rest with
        | some (s, rem) => some (.str (String.mk s), rem)
        | none => none
      else if c = lbrace then
        match skipWs rest with
        | [] => none
        | c2 :: rest2 =>
          if c2 = rbrace then some (.obj [], rest2)
          else
            match parseMembersReq fuel (c2 :: rest2) with
            | some (ms, rem) => some (.obj ms, rem)
            | none => none
      else if c = '[' then
        match skipWs rest with
        | [] => none
        | c2 :: rest2 =>
          if c2 = ']' then some (.arr [], rest2)
          else
            match parseItemsReq fuel (c2 :: rest2) with
            | some (vs, rem) => some (.arr vs, rem)
            | none => none
      else if c = 't' then
        match dropLit ['r', 'u', 'e'] rest with
        | some rem => some (.bool true, rem)
        | none => none
      else if c = 'f' then
        match dropLit ['a', 'l', 's', 'e'] rest with
        | some rem => some (.bool false, rem)
        | none => none
      else if c = 'n' then
        match dropLit ['u', 'l', 'l'] rest with
        | some rem => some (.null, rem)
        | none => none
      else if c = '-' then
        match takeDigits rest with
        | ([], _) => none
        | (ds, rem) => some (.num (-(Int.ofNat (digitsVal ds))), rem)
      else if c.isDigit then
        match takeDigits (c :: rest) with
        | ([], _) => none
        | (ds, rem) => some (.num (Int.ofNat (digitsVal ds)), rem)
      else none

/-- Parse one or more `"key": value` members of a JSON object, up to and
including the closing brace. -/
def parseMembersReq : Nat → List Char → Option (List (String × JsonValue) × List Char)
  | 0, _ => none
  | fuel+1, cs =>
    match skipWs cs with
    | [] => none
    | c :: rest =>
      if c = '\"' then
        match parseStrChars rest with
        | some (k, rem1) =>
          match skipWs rem1 with
          | [] => none
          | c2 :: rem2 =>
            if c2 = ':' then
              match parseV fuel rem2 with
              | some (v, rem3) =>
                match skipWs rem3 with
                | [] => none
                | c3 :: rem4 =>
                  if c3 = ',' then
                    match parseMembersReq fuel rem4 with
                    | some (ms, rem5) => some ((String.mk k, v) :: ms, rem5)
                    | none => none
                  else if c3 = rbrace then some ([(String.mk k, v)], rem4)
                  else none
              | none => none
            else none
        | none => none
      else none

/-- Parse one or more comma-separated items of a JSON array, up to and
including the closing bracket. -/
def parseItemsReq : Nat → List Char → Option (List JsonValue × List Char)
  | 0, _ => none
  | fuel+1, cs =>
    match parseV fuel cs with
    | some (v, rem) =>
      match skipWs rem with
      | [] => none
      | c :: rem2 =>
        if c = ',' then
          match parseItemsReq fuel rem2 with
          | some (vs, rem3) => some (v :: vs, rem3)
          | none => none
        else if c = ']' then some ([v], rem2)
        else none
    | none => none

end

/-- Model of Python `json.loads`: parse a whole string as one JSON value,
requiring that nothing but whitespace remains. -/
def jsonParse (s : String) : Option JsonValue :=
  match parseV (2 * s.data.length + 4) s.data with
  | some (v, rem) => if (skipWs rem).isEmpty then some v else none
  | none => none

/-- `ADGM_CHECKLISTS` table from the source: process name mapped to the
ordered required document-type labels. -/
def ADGM_CHECKLISTS : List (String × List String) :=
  [("Company Incorporation",
    ["Articles of Association",
     "Memorandum of Association",
     "Incorporation Application Form",
     "UBO Declaration Form",
     "Register of Members and Directors"])]

/-- `DOC_TYPE_KEYWORDS` table from the source: document-type label mapped to
its identifying lowercase keyword substrings, in declared order. -/
def DOC_TYPE_KEYWORDS : List (String × List String) :=
  [("Articles of Association", ["articles of association", "aoa", "articles"]),
   ("Memorandum of Association", ["memorandum of association", "moa", "memorandum"]),
   ("Incorporation Application Form", ["incorporation application"]),
   ("UBO Declaration Form", ["ubo declaration"]),
   ("Register of Members and Directors", ["register of members", "register of directors"])]

/-- `required_docs = ADGM_CHECKLISTS["Company Incorporation"]` from the
orchestrator. -/
def required_docs : List String :=
  ((ADGM_CHECKLISTS.find? (fun pr => pr.1 == "Company Incorporation")).map
    (fun pr => pr.2)).getD []

/-- One row of the keyword table matches the lower-cased text when any of its
keywords occurs in it (`any(k in text_l for k in keys)`). -/
def keywordsMatch (text_l : String) (pr : String × List String) : Bool :=
  pr.2.any (fun k => strContains text_l k)

/-- `classify_document` from the source.  The argument is optional because the
Python body `(text or "").lower()` accepts `None` as well as a string. -/
def classify_document (text : Option String) : String :=
  let text_l := pyLower (text.getD (""))
  match DOC_TYPE_KEYWORDS.find? (keywordsMatch text_l) with
  | some pr => pr.1
  | none => "Unknown Document Type"

/-- `text.find(lbrace)` of `_extract_json_from_text`: the suffix of the input
starting at the first open brace, if any. -/
def findStart : List Char → Option (List Char)
  | [] => none
  | c :: rest => if c = lbrace then some (c :: rest) else findStart rest

/-- The depth-counting scan of `_extract_json_from_text`: accumulate the
characters of the candidate span; when the depth returns to zero attempt
`json.loads` on the span, returning the empty mapping on parse failure.
`acc` holds `text[start:i]` and `depth` the current brace depth. -/
def extractLoop : List Char → Nat → List Char → JsonValue
  | _, _, [] => .obj []
  | acc, depth, c :: rest =>
    if c = lbrace then extractLoop (acc ++ [c]) (depth + 1) rest
    else if c = rbrace then
      if depth = 1 then
        match jsonParse (String.mk (acc ++ [c])) with
        | some v => v
        | none => .obj []
      else extractLoop (acc ++ [c]) (depth - 1) rest
    else extractLoop (acc ++ [c]) depth rest

/-- `_extract_json_from_text` from the source. -/
def _extract_json_from_text (text : String) : JsonValue :=
  match findStart text.data with
  | none => .obj []
  | some cs => extractLoop [] 0 cs

/-- The first balanced brace span of the depth-counting scan, as a value:
same traversal as `extractLoop` but returning the span instead of parsing. -/
def spanFrom : List Char → Nat → List Char → Option (List Char)
  | _, _, [] => none
  | acc, depth, c :: rest =>
    if c = lbrace then spanFrom (acc ++ [c]) (depth + 1) rest
    else if c = rbrace then
      if depth = 1 then some (acc ++ [c])
      else spanFrom (acc ++ [c]) (depth - 1) rest
    else spanFrom (acc ++ [c]) depth rest

/-- The first balanced `\x7b...\x7d` span located by the depth counter, if any. -/
def firstBraceSpan (cs : List Char) : Option (List Char) :=
  match findStart cs with
  | none => none
  | some rest => spanFrom [] 0 rest

/-- The response post-processing of `run_rag_review` (lines 103-107 of the
source): extract JSON from the reviewer's free-form response and substitute
the synthesized mapping when the extraction is falsy.  The network call
producing `resp` is an external collaborator; `resp` is its response text. -/
def run_rag_review_post (doc_name : String) (resp : String) : JsonValue :=
  let parsed := _extract_json_from_text resp
  if jsonTruthy parsed then parsed
  else .obj [("document", .str doc_name), ("issues", .arr [])]

/-- A text run of a docx paragraph (python-docx `Run`): its text and whether
it carries the yellow highlight. -/
structure DocxRun where
  text : String
  highlight : Bool
deriving DecidableEq

/-- A docx paragraph (python-docx `Paragraph`) as its list of runs. -/
structure DocxPara where
  runs : List DocxRun
deriving DecidableEq

/-- python-docx `paragraph.text`: the concatenation of its runs' texts. -/
def DocxPara.text (p : DocxPara) : String :=
  strConcat (p.runs.map DocxRun.text)

/-- Python `str()` rendering used by the f-string, on non-string leaves; the
fuel argument bounds the recursion depth through containers. -/
def joinComma : List String → String
  | [] => ""
  | [s] => s
  | s :: rest => s ++ ", " ++ joinComma rest

/-- Python `repr()` of a parsed JSON value. -/
def pyRepr : JsonValue → String
  | .str s => "'" ++ s ++ "'"
  | .num n => toString n
  | .bool true => "True"
  | .bool false => "False"
  | .null => "None"
  | .arr xs => "[" ++ joinComma (xs.attach.map (fun a => pyRepr a.1)) ++ "]"
  | .obj fs =>
    "\x7b" ++
      joinComma (fs.attach.map (fun a => "'" ++ a.1.1 ++ "': " ++ pyRepr a.1.2)) ++
      "\x7d"
decreasing_by
  · have h := List.sizeOf_lt_of_mem a.2
    simp only [JsonValue.arr.sizeOf_spec]
    omega
  · obtain ⟨⟨s, v⟩, hm⟩ := a
    have h := List.sizeOf_lt_of_mem hm
    simp only [Prod.mk.sizeOf_spec] at h
    simp only [JsonValue.obj.sizeOf_spec]
    omega

/-- Python `str()` of a parsed JSON value, as interpolated by an f-string. -/
def pyStrOf : JsonValue → String
  | .str s => s
  | v => pyRepr v

/-- `section = (issue.get("section") or "")` of the annotator, before the
lower-casing: `none` models the `.lower()` call raising on a truthy
non-string value. -/
def sectionVal (issue : Jdict) : Option String :=
  match dget? issue ("section") with
  | none => some ("")
  | some v =>
    if jsonTruthy v then
      match v with
      | .str s => some s
      | _ => none
    else some ("")

/-- `issue.get("issue", "")` of the annotator: `none` models the slice or
`.lower()` raising on a present non-string value. -/
def issueVal (issue : Jdict) : Option String :=
  match dget? issue ("issue") with
  | none => some ("")
  | some (.str s) => some s
  | some _ => none

/-- `snippet = section or issue.get("issue", "")[:50].lower()` of the
annotator (the `section` variable is already lower-cased). -/
def computeSnippet (issue : Jdict) : Option String :=
  match sectionVal issue with
  | none => none
  | some sec =>
    let section_l := pyLower sec
    if section_l == "" then
      match issueVal issue with
      | none => none
      | some t => some (pyLower (strTake 50 t))
    else some section_l

/-- `comment = f"[Suggestion: ...]"` of the annotator. -/
def commentOf (issue : Jdict) : String :=
  "[Suggestion: " ++ pyStrOf ((dget? issue ("suggestion")).getD (.str (""))) ++ "]"

/-- The paragraph scan of the annotator for one issue: on the first paragraph
whose lower-cased text contains the (non-empty) snippet, append the remark as
a new highlighted run; `none` when no paragraph matches. -/
def addRunToFirst (snippet comment : String) : List DocxPara → Option (List DocxPara)
  | [] => none
  | p :: ps =>
    if (!(snippet == "")) && strContains (pyLower (DocxPara.text p)) snippet then
      some ({ runs := p.runs ++ [{ text := " " ++ comment, highlight := true }] } :: ps)
    else
      match addRunToFirst snippet comment ps with
      | some r => some (p :: r)
      | none => none

/-- Placement of one issue by the annotator: inline remark on the first
matching paragraph, else a new highlighted trailing paragraph holding the
remark alone. -/
def issueStep (paras : List DocxPara) (snippet comment : String) : List DocxPara :=
  match addRunToFirst snippet comment paras with
  | some r => r
  | none => paras ++ [{ runs := [{ text := comment, highlight := true }] }]

/-- Python `for issue in issues` over the value found under `"issues"`: the
loop body calls `.get` on each element, so it raises (`none`) unless the
value is a JSON array of objects; iterating an empty dict or empty string
yields no iterations. -/
def asIssueList : JsonValue → Option (List Jdict)
  | .arr xs => xs.mapM (fun x => match x with | JsonValue.obj d => some d | _ => none)
  | .obj [] => some []
  | .str s => if s == "" then some [] else none
  | _ => none

/-- The issue loop of `annotate_docx_inline`, threading the paragraph list. -/
def annotateLoop : List DocxPara → List Jdict → Option (List DocxPara)
  | paras, [] => some paras
  | paras, issue :: rest =>
    match computeSnippet issue with
    | none => none
    | some snippet => annotateLoop (issueStep paras snippet (commentOf issue)) rest

/-- `annotate_docx_inline` from the source, at the level of the document's
paragraph list (the docx byte (de)serialization is the external python-docx
library; tables are not touched by the annotator).  `none` models an
exception escaping the function. -/
def annotate_docx_inline (paras : List DocxPara) (json_review : Jdict) : Option (List DocxPara) :=
  match asIssueList ((dget? json_review ("issues")).getD (.arr [])) with
  | none => none
  | some issues => annotateLoop paras issues

/-- The per-issue dict built by the orchestrator's aggregation comprehension
(lines 161-167 of the source): the issue tagged with its document's
classified type and with every field defaulted. -/
def tagIssue (doc_type : String) (i : Jdict) : Jdict :=
  [("document", .str doc_type),
   ("section", (dget? i ("section")).getD (.str (""))),
   ("issue", (dget? i ("issue")).getD (.str (""))),
   ("severity", (dget? i ("severity")).getD (.str (""))),
   ("suggestion", (dget? i ("suggestion")).getD (.str ("")))]

/-- The tagged issues the orchestrator extracts from one document's review
result: `review_json.get("issues", [])` iterated and tagged; `none` models
the comprehension raising on a malformed shape. -/
def docIssues (doc_type : String) (review : JsonValue) : Option (List Jdict) :=
  match review with
  | .obj d =>
    match asIssueList ((dget? d ("issues")).getD (.arr [])) with
    | none => none
    | some is => some (is.map (tagIssue doc_type))
  | _ => none

/-- The per-document pipeline of the orchestrator loop, for one candidate
document given as (extracted text, reviewer response text): classify, then
post-process the review and tag its issues. -/
def perDocIssues (d : String × String) : Option (List Jdict) :=
  docIssues (classify_document (some d.1)) (run_rag_review_post (classify_document (some d.1)) d.2)

/-- The per-document tagged issue lists of a batch, in upload order. -/
def perDocLists : List (String × String) → Option (List (List Jdict))
  | [] => some []
  | d :: rest =>
    match perDocIssues d with
    | none => none
    | some l =>
      match perDocLists rest with
      | none => none
      | some ls => some (l :: ls)

/-- The orchestrator loop over the batch (lines 154-167 of the source):
accumulates `detected_types` and `all_issues` in upload order.  Each batch
element is (extracted text, reviewer response text); the docx byte handling
and the annotation output file list are modelled separately. -/
def processBatch : List (String × String) → Option (List String × List Jdict)
  | [] => some ([], [])
  | d :: rest =>
    match docIssues (classify_document (some d.1)) (run_rag_review_post (classify_document (some d.1)) d.2) with
    | none => none
    | some tagged =>
      match processBatch rest with
      | none => none
      | some pr => some (classify_document (some d.1) :: pr.1, tagged ++ pr.2)

/-- The checklist audit of the orchestrator (line 172 and the report's
`missing_document` entry): the head of the required labels absent from the
detected sequence. -/
def missing_document (required_list detected_types : List String) : Option String :=
  (required_list.filter (fun d => !(detected_types.contains d))).head?

/-- The `output_json` report of the orchestrator. -/
structure Report where
  process : String
  documents_uploaded : Nat
  required_documents : Nat
  missing_doc : Option String
  issues_found : List Jdict

/-- `output_json` as built on lines 173-179 of the source. -/
def buildReport (docs : List (String × String)) : Option Report :=
  match processBatch docs with
  | none => none
  | some pr =>
    some { process := "Company Incorporation",
           documents_uploaded := docs.length,
           required_documents := required_docs.length,
           missing_doc := missing_document required_docs pr.1,
           issues_found := pr.2 }

/-- The remark text appended for suggestion `s`. -/
def remarkFor (s : String) : String :=
  " [Suggestion: " ++ s ++ "]"

/-- Concatenated remark suffixes for a list of suggestions. -/
def remarksSuffix (l : List String) : String :=
  strConcat (l.map remarkFor)

/-- The paragraph-preservation relation: every original paragraph is still
present at its index, its text extended only by remark suffixes. -/
def ParasEvolve (orig cur : List DocxPara) : Prop :=
  orig.length ≤ cur.length ∧
  ∀ i (h : i < orig.length) (h2 : i < cur.length),
    ∃ l : List String,
      DocxPara.text (cur.get ⟨i, h2⟩) = DocxPara.text (orig.get ⟨i, h⟩) ++ remarksSuffix l

/-- `List.find?` returns the element at the first index satisfying the
predicate, and `none` exactly when no index satisfies it. -/
theorem find_first_spec {α : Type} (p : α → Bool) :
    ∀ l : List α,
      (l.find? p = none ∧ ∀ i (h : i < l.length), p (l.get ⟨i, h⟩) = false) ∨
      (∃ i, ∃ h : i < l.length, l.find? p = some (l.get ⟨i, h⟩) ∧
        p (l.get ⟨i, h⟩) = true ∧
        ∀ j (hj : j < l.length), j < i → p (l.get ⟨j, hj⟩) = false)
  | [] => Or.inl ⟨rfl, fun i h => absurd h (Nat.not_lt_zero i)⟩
  | a :: t => by
    cases hpa : p a with
    | true =>
      right
      refine ⟨0, Nat.succ_pos _, ?_, hpa, fun j hj hlt => absurd hlt (Nat.not_lt_zero j)⟩
      simp [List.find?_cons, hpa]
    | false =>
      rcases find_first_spec p t with ⟨hn, hall⟩ | ⟨i, h, hf, hp, hb⟩
      · left
        refine ⟨?_, ?_⟩
        · simp [List.find?_cons, hpa, hn]
        · intro i hi
          cases i with
          | zero => exact hpa
          | succ i => exact hall i (Nat.lt_of_succ_lt_succ hi)
      · right
        refine ⟨i + 1, Nat.succ_lt_succ h, ?_, hp, ?_⟩
        · simpa [List.find?_cons, hpa] using hf
        · intro j hj hlt
          cases j with
          | zero => exact hpa
          | succ j => exact hb j (Nat.lt_of_succ_lt_succ hj) (Nat.lt_of_succ_lt_succ hlt)

/-- The head of a filtered list is the first element satisfying the filter. -/
theorem filter_head_eq_find {α : Type} (p : α → Bool) :
    ∀ l : List α, (l.filter p).head? = l.find? p
  | [] => rfl
  | a :: t => by
    cases hpa : p a with
    | true => simp [List.filter_cons, List.find?_cons, hpa]
    | false => simp [List.filter_cons, List.find?_cons, hpa, filter_head_eq_find p t]

/-- Claim C2: `classify_document` lower-cases the text once and returns the
first-declared label of `DOC_TYPE_KEYWORDS` one of whose keywords occurs in
the lower-cased text; with no match (in particular for the empty string and
for keyword-free text) it returns exactly "Unknown Document Type". -/
theorem c2_classify_first_label_wins :
    (∀ t : String,
      (classify_document (some t) = "Unknown Document Type" ∧
        ∀ i (h : i < DOC_TYPE_KEYWORDS.length),
          keywordsMatch (pyLower t) (DOC_TYPE_KEYWORDS.get ⟨i, h⟩) = false) ∨
      (∃ i, ∃ h : i < DOC_TYPE_KEYWORDS.length,
        classify_document (some t) = (DOC_TYPE_KEYWORDS.get ⟨i, h⟩).1 ∧
        keywordsMatch (pyLower t) (DOC_TYPE_KEYWORDS.get ⟨i, h⟩) = true ∧
        ∀ j (hj : j < DOC_TYPE_KEYWORDS.length), j < i →
          keywordsMatch (pyLower t) (DOC_TYPE_KEYWORDS.get ⟨j, hj⟩) = false)) ∧
    classify_document (some ("")) = "Unknown Document Type" ∧
    classify_document (some ("no keywords here")) = "Unknown Document Type" := by
  refine ⟨?_, rfl, rfl⟩
  intro t
  rcases find_first_spec (keywordsMatch (pyLower t)) DOC_TYPE_KEYWORDS with
    ⟨hn, hall⟩ | ⟨i, h, hf, hp, hb⟩
  · left
    refine ⟨?_, hall⟩
    show (match DOC_TYPE_KEYWORDS.find? (keywordsMatch (pyLower t)) with
      | some pr => pr.1
      | none => "Unknown Document Type") = "Unknown Document Type"
    rw [hn]
  · right
    refine ⟨i, h, ?_, hp, hb⟩
    show (match DOC_TYPE_KEYWORDS.find? (keywordsMatch (pyLower t)) with
      | some pr => pr.1
      | none => "Unknown Document Type") = (DOC_TYPE_KEYWORDS.get ⟨i, h⟩).1
    rw [hf]

/-- Claim C2 witness: the classifier fallback at the empty string. -/
theorem c2_classify_first_label_wins_witness :
    classify_document (some ("")) = "Unknown Document Type" :=
  c2_classify_first_label_wins.2.1

/-- The checklist audit rewritten through `List.find?`. -/
theorem missing_document_eq_find (required_list dts : List String) :
    missing_document required_list dts =
      required_list.find? (fun d => !(dts.contains d)) :=
  filter_head_eq_find _ _

/-- Claim C4: the checklist audit returns the first required label (in the
required list's order) absent from the detected sequence, `none` when every
required label appears, and only the membership (not the order) of the
detected sequence matters. -/
theorem c4_missing_document_first_absent (required_list detected : List String) :
    ((∀ d ∈ required_list, d ∈ detected) →
      missing_document required_list detected = none) ∧
    (∀ i (h : i < required_list.length),
      required_list.get ⟨i, h⟩ ∉ detected →
      (∀ j (hj : j < required_list.length), j < i →
        required_list.get ⟨j, hj⟩ ∈ detected) →
      missing_document required_list detected = some (required_list.get ⟨i, h⟩)) ∧
    (∀ detected2 : List String, (∀ x, x ∈ detected ↔ x ∈ detected2) →
      missing_document required_list detected =
        missing_document required_list detected2) := by
  refine ⟨?_, ?_, ?_⟩
  · intro hall
    rw [missing_document_eq_find]
    apply List.find?_eq_none.mpr
    intro d hd
    simp [hall d hd]
  · intro i h hnot hbefore
    rw [missing_document_eq_find]
    rcases find_first_spec (fun d => !(detected.contains d)) required_list with
      ⟨hn, hall⟩ | ⟨i', h', hf, hp, hb⟩
    · exfalso
      have hfalse := hall i h
      simp at hfalse
      exact hnot hfalse
    · have hii : i' = i := by
        rcases Nat.lt_trichotomy i' i with hlt | heq | hgt
        · exfalso
          have hmem := hbefore i' h' hlt
          simp at hp
          exact hp hmem
        · exact heq
        · exfalso
          have hfalse := hb i h hgt
          simp at hfalse
          exact hnot hfalse
      subst hii
      rw [hf]
  · intro detected2 hiff
    have hfun : (fun d => !(detected.contains d)) = (fun d => !(detected2.contains d)) := by
      funext x
      by_cases hx : x ∈ detected
      · simp [hx, (hiff x).mp hx]
      · have hx2 : x ∉ detected2 := fun hm => hx ((hiff x).mpr hm)
        simp [hx, hx2]
    rw [missing_document_eq_find, missing_document_eq_find, hfun]

/-- Claim C4 witness: with the real required list and a detected sequence
missing only "Memorandum of Association", the audit returns it. -/
theorem c4_missing_document_first_absent_witness :
    missing_document required_docs
        ["Articles of Association", "Incorporation Application Form",
         "UBO Declaration Form", "Register of Members and Directors"] =
      some ("Memorandum of Association") := by
  have h := (c4_missing_document_first_absent required_docs
      ["Articles of Association", "Incorporation Application Form",
       "UBO Declaration Form", "Register of Members and Directors"]).2.1
      1 (by decide) (by decide)
      (by
        intro j hj hlt
        have hj0 : j = 0 := Nat.lt_one_iff.mp hlt
        subst hj0
        show ("Articles of Association" : String) ∈
          ["Articles of Association", "Incorporation Application Form",
           "UBO Declaration Form", "Register of Members and Directors"]
        decide)
  exact h.trans rfl

/-- Claim C8: every label required by the "Company Incorporation" checklist
is a key of the classifier's keyword table, and every required label is an
achievable output of `classify_document`. -/
theorem c8_labels_shared_enumeration :
    (∀ d ∈ required_docs, ∃ ks, (d, ks) ∈ DOC_TYPE_KEYWORDS) ∧
    (∀ d ∈ required_docs, ∃ t : String, classify_document (some t) = d) := by
  constructor
  · intro d hd
    have hd' : d ∈ ["Articles of Association", "Memorandum of Association",
        "Incorporation Application Form", "UBO Declaration Form",
        "Register of Members and Directors"] := hd
    fin_cases hd'
    · exact ⟨["articles of association", "aoa", "articles"], by decide⟩
    · exact ⟨["memorandum of association", "moa", "memorandum"], by decide⟩
    · exact ⟨["incorporation application"], by decide⟩
    · exact ⟨["ubo declaration"], by decide⟩
    · exact ⟨["register of members", "register of directors"], by decide⟩
  · intro d hd
    have hd' : d ∈ ["Articles of Association", "Memorandum of Association",
        "Incorporation Application Form", "UBO Declaration Form",
        "Register of Members and Directors"] := hd
    fin_cases hd'
    · exact ⟨"aoa", rfl⟩
    · exact ⟨"moa", rfl⟩
    · exact ⟨"incorporation application", rfl⟩
    · exact ⟨"ubo declaration", rfl⟩
    · exact ⟨"register of members", rfl⟩

/-- Claim C8 witness: one required label realized as a classifier output. -/
theorem c8_labels_shared_enumeration_witness :
    ∃ t : String, classify_document (some t) = "UBO Declaration Form" :=
  c8_labels_shared_enumeration.2 ("UBO Declaration Form") (by decide)

/-- Claim C9: `classify_document` accepts a `None` text, behaving exactly as
for the empty string and returning the unknown sentinel. -/
theorem c9_classify_none_like_empty :
    classify_document none = "Unknown Document Type" ∧
    classify_document none = classify_document (some ("")) :=
  ⟨rfl, rfl⟩

/-- Claim C1 (amended): `run_rag_review` applies the JSON extraction to the
response and returns the synthesized mapping exactly when the extraction is
falsy (the empty mapping); a truthy extraction is returned unchanged, even
when it lacks an "issues" field. -/
theorem c1_review_fallback_on_falsy (doc_name resp : String) :
    (jsonTruthy (_extract_json_from_text resp) = false →
      run_rag_review_post doc_name resp =
        .obj [("document", .str doc_name), ("issues", .arr [])] ∧
      jget (run_rag_review_post doc_name resp) ("issues") = some (.arr [])) ∧
    (jsonTruthy (_extract_json_from_text resp) = true →
      run_rag_review_post doc_name resp = _extract_json_from_text resp) := by
  constructor
  · intro hfalse
    have heq : run_rag_review_post doc_name resp =
        .obj [("document", .str doc_name), ("issues", .arr [])] := by
      unfold run_rag_review_post
      simp [hfalse]
    refine ⟨heq, ?_⟩
    rw [heq]
    rfl
  · intro htrue
    unfold run_rag_review_post
    simp [htrue]

/-- Claim C1 counterexample: a reviewer response whose extracted JSON is a
non-empty mapping without an "issues" field is returned as-is, so the result
of `run_rag_review` does not always contain an "issues" field. -/
theorem c1_always_issues_counterexample :
    jget (run_rag_review_post ("Doc") ("\x7b\"document\":\"X\"\x7d")) ("issues") = none :=
  rfl

/-- Claim C1 witness: a brace-free response is falsy after extraction and is
replaced by the synthesized mapping. -/
theorem c1_review_fallback_on_falsy_witness :
    jsonTruthy (_extract_json_from_text ("no braces here")) = false ∧
    run_rag_review_post ("N") ("no braces here") =
      .obj [("document", .str ("N")), ("issues", .arr [])] :=
  ⟨rfl, ((c1_review_fallback_on_falsy ("N") ("no braces here")).1 rfl).1⟩

/-- The fused extraction loop equals locating the span first and parsing it
afterwards. -/
theorem extractLoop_eq_spanFrom :
    ∀ (cs acc : List Char) (depth : Nat),
      extractLoop acc depth cs =
        (match spanFrom acc depth cs with
          | some span => (jsonParse (String.mk span)).getD (.obj [])
          | none => .obj [])
  | [], acc, depth => rfl
  | c :: rest, acc, depth => by
    by_cases h1 : c = lbrace
    · simp only [extractLoop, spanFrom, if_pos h1]
      exact extractLoop_eq_spanFrom rest (acc ++ [c]) (depth + 1)
    · by_cases h2 : c = rbrace
      · by_cases h3 : depth = 1
        · simp only [extractLoop, spanFrom, if_neg h1, if_pos h2, if_pos h3]
          cases jsonParse (String.mk (acc ++ [c])) <;> rfl
        · simp only [extractLoop, spanFrom, if_neg h1, if_pos h2, if_neg h3]
          exact extractLoop_eq_spanFrom rest (acc ++ [c]) (depth - 1)
      · simp only [extractLoop, spanFrom, if_neg h1, if_neg h2]
        exact extractLoop_eq_spanFrom rest (acc ++ [c]) depth

/-- With no open brace in the input, the start search fails. -/
theorem findStart_eq_none : ∀ cs : List Char, lbrace ∉ cs → findStart cs = none
  | [], _ => rfl
  | c :: rest, h => by
    have hc : ¬ (c = lbrace) := fun he => h (by rw [he]; exact List.mem_cons_self _ _)
    simp only [findStart, if_neg hc]
    exact findStart_eq_none rest (fun hm => h (List.mem_cons_of_mem c hm))

/-- Claim C3: `_extract_json_from_text` parses exactly the first balanced
brace span located by the depth counter; it returns the empty mapping when
there is no open brace, when no balanced span exists, and when the span fails
to parse; and on every input it either returns the parse of that span or the
empty mapping (it never raises). -/
theorem c3_extract_json_never_raises (text : String) :
    (lbrace ∉ text.data → _extract_json_from_text text = .obj []) ∧
    (firstBraceSpan text.data = none → _extract_json_from_text text = .obj []) ∧
    (∀ span, firstBraceSpan text.data = some span →
      jsonParse (String.mk span) = none → _extract_json_from_text text = .obj []) ∧
    (∀ span v, firstBraceSpan text.data = some span →
      jsonParse (String.mk span) = some v → _extract_json_from_text text = v) ∧
    (_extract_json_from_text text = .obj [] ∨
      ∃ span v, firstBraceSpan text.data = some span ∧
        jsonParse (String.mk span) = some v ∧ _extract_json_from_text text = v) := by
  cases hfs : findStart text.data with
  | none =>
    have h1 : _extract_json_from_text text = .obj [] := by
      unfold _extract_json_from_text
      rw [hfs]
    have hspan : firstBraceSpan text.data = none := by
      unfold firstBraceSpan
      rw [hfs]
    refine ⟨fun _ => h1, fun _ => h1, ?_, ?_, Or.inl h1⟩
    · intro span hsp hpn
      exact h1
    · intro span v hsp hpv
      rw [hspan] at hsp
      cases hsp
  | some cs =>
    have hb : firstBraceSpan text.data = spanFrom [] 0 cs := by
      unfold firstBraceSpan
      rw [hfs]
    have he : _extract_json_from_text text =
        (match spanFrom [] 0 cs with
          | some span => (jsonParse (String.mk span)).getD (.obj [])
          | none => .obj []) := by
      unfold _extract_json_from_text
      rw [hfs]
      exact extractLoop_eq_spanFrom cs [] 0
    cases hsf : spanFrom [] 0 cs with
    | none =>
      rw [hsf] at he
      refine ⟨fun _ => he, fun _ => he, fun span hsp hpn => he, ?_, Or.inl he⟩
      intro span v hsp hpv
      rw [hb, hsf] at hsp
      cases hsp
    | some span =>
      rw [hsf] at he
      have he2 : _extract_json_from_text text =
          (jsonParse (String.mk span)).getD (.obj []) := he
      have hbs : firstBraceSpan text.data = some span := by rw [hb, hsf]
      refine ⟨?_, ?_, ?_, ?_, ?_⟩
      · intro hnb
        rw [findStart_eq_none text.data hnb] at hfs
        cases hfs
      · intro hnone
        rw [hbs] at hnone
        cases hnone
      · intro span' hsp hpn
        rw [hbs] at hsp
        cases hsp
        rw [he2, hpn]
        rfl
      · intro span' v hsp hpv
        rw [hbs] at hsp
        cases hsp
        rw [he2, hpv]
        rfl
      · cases hpv : jsonParse (String.mk span) with
        | none =>
          left
          rw [he2, hpv]
          rfl
        | some v =>
          right
          exact ⟨span, v, hbs, hpv, by rw [he2, hpv]; rfl⟩

/-- String concatenation is associative. -/
theorem str_append_assoc (a b c : String) : (a ++ b) ++ c = a ++ (b ++ c) := by
  apply String.ext
  simp [String.data_append]

/-- The empty string is a right unit. -/
theorem str_append_empty (a : String) : a ++ "" = a := by
  apply String.ext
  simp [String.data_append]

/-- `strConcat` distributes over list append. -/
theorem strConcat_append :
    ∀ xs ys : List String, strConcat (xs ++ ys) = strConcat xs ++ strConcat ys
  | [], ys => by
    show strConcat ys = "" ++ strConcat ys
    apply String.ext
    simp [String.data_append]
  | s :: xs, ys => by
    show s ++ strConcat (xs ++ ys) = (s ++ strConcat xs) ++ strConcat ys
    rw [strConcat_append xs ys, str_append_assoc]

/-- Appending a run to a paragraph appends its text. -/
theorem paraText_append_run (rs : List DocxRun) (r : DocxRun) :
    DocxPara.text { runs := rs ++ [r] } = DocxPara.text { runs := rs } ++ r.text := by
  unfold DocxPara.text
  show strConcat (List.map DocxRun.text (rs ++ [r])) =
    strConcat (List.map DocxRun.text rs) ++ DocxRun.text r
  rw [List.map_append, strConcat_append]
  show strConcat (List.map DocxRun.text rs) ++ (DocxRun.text r ++ "") =
    strConcat (List.map DocxRun.text rs) ++ DocxRun.text r
  rw [str_append_empty]

/-- Remark suffixes concatenate. -/
theorem remarksSuffix_append (l1 l2 : List String) :
    remarksSuffix (l1 ++ l2) = remarksSuffix l1 ++ remarksSuffix l2 := by
  unfold remarksSuffix
  rw [List.map_append, strConcat_append]

/-- A single remark suffix is the appended run text of the annotator. -/
theorem remarksSuffix_single (x : String) :
    " " ++ ("[Suggestion: " ++ x ++ "]") = remarksSuffix [x] := by
  unfold remarksSuffix remarkFor
  apply String.ext
  simp [strConcat, String.data_append, str_append_empty]

/-- The scan finds the paragraph at the first matching index and appends the
remark run there, leaving every other paragraph unchanged. -/
theorem addRunToFirst_first_match (snippet comment : String) :
    ∀ (ps : List DocxPara) (i : Nat) (h : i < ps.length),
      snippet ≠ "" →
      strContains (pyLower (DocxPara.text (ps.get ⟨i, h⟩))) snippet = true →
      (∀ j (hj : j < ps.length), j < i →
        strContains (pyLower (DocxPara.text (ps.get ⟨j, hj⟩))) snippet = false) →
      addRunToFirst snippet comment ps =
        some (ps.set i { runs := (ps.get ⟨i, h⟩).runs ++
          [{ text := " " ++ comment, highlight := true }] })
  | [], i, h, _, _, _ => absurd h (Nat.not_lt_zero i)
  | p :: ps, 0, h, hne, hcont, hbefore => by
    have hcont' : strContains (pyLower (DocxPara.text p)) snippet = true := hcont
    have hbe : (snippet == "") = false := by
      simp [hne]
    simp [addRunToFirst, hbe, hcont']
  | p :: ps, i+1, h, hne, hcont, hbefore => by
    have hhead : strContains (pyLower (DocxPara.text p)) snippet = false :=
      hbefore 0 (Nat.succ_pos _) (Nat.succ_pos i)
    have ih := addRunToFirst_first_match snippet comment ps i
      (Nat.lt_of_succ_lt_succ h) hne hcont
      (fun j hj hlt => hbefore (j+1) (Nat.succ_lt_succ hj) (Nat.succ_lt_succ hlt))
    simp [addRunToFirst, hhead, ih]

/-- The scan fails when no paragraph satisfies the match condition. -/
theorem addRunToFirst_eq_none (snippet comment : String) :
    ∀ ps : List DocxPara,
      (∀ i (h : i < ps.length),
        ((!(snippet == "")) &&
          strContains (pyLower (DocxPara.text (ps.get ⟨i, h⟩))) snippet) = false) →
      addRunToFirst snippet comment ps = none
  | [], _ => rfl
  | p :: ps, hall => by
    have hhead : ((!(snippet == "")) &&
        strContains (pyLower (DocxPara.text p)) snippet) = false :=
      hall 0 (Nat.succ_pos _)
    have ih := addRunToFirst_eq_none snippet comment ps
      (fun i hi => hall (i+1) (Nat.succ_lt_succ hi))
    simp [addRunToFirst, hhead, ih]

/-- A successful scan keeps the paragraph count and changes at most one
paragraph, by appending the remark run. -/
theorem addRunToFirst_some_spec (snippet comment : String) :
    ∀ (ps r : List DocxPara), addRunToFirst snippet comment ps = some r →
      r.length = ps.length ∧
      ∀ i (h : i < ps.length) (h2 : i < r.length),
        r.get ⟨i, h2⟩ = ps.get ⟨i, h⟩ ∨
        (r.get ⟨i, h2⟩).runs = (ps.get ⟨i, h⟩).runs ++
          [{ text := " " ++ comment, highlight := true }]
  | [], r, hr => by cases hr
  | p :: ps, r, hr => by
    by_cases hcond : ((!(snippet == "")) &&
        strContains (pyLower (DocxPara.text p)) snippet) = true
    · rw [show addRunToFirst snippet comment (p :: ps) =
          some ({ runs := p.runs ++ [{ text := " " ++ comment, highlight := true }] } :: ps)
          from by simp [addRunToFirst, hcond]] at hr
      cases hr
      refine ⟨by simp, ?_⟩
      intro i h h2
      cases i with
      | zero => right; rfl
      | succ i => left; rfl
    · have hcond' : ((!(snippet == "")) &&
          strContains (pyLower (DocxPara.text p)) snippet) = false :=
        Bool.eq_false_iff.mpr hcond
      rw [show addRunToFirst snippet comment (p :: ps) =
          (match addRunToFirst snippet comment ps with
            | some r' => some (p :: r')
            | none => none)
          from by simp [addRunToFirst, hcond']] at hr
      cases hrec : addRunToFirst snippet comment ps with
      | none =>
        rw [hrec] at hr
        cases hr
      | some r' =>
        rw [hrec] at hr
        cases hr
        have ih := addRunToFirst_some_spec snippet comment ps r' hrec
        refine ⟨by simp [ih.1], ?_⟩
        intro i h h2
        cases i with
        | zero => left; rfl
        | succ i =>
          exact ih.2 i (Nat.lt_of_succ_lt_succ h) (Nat.lt_of_succ_lt_succ h2)

/-- Claim C5: the snippet is the lower-cased section when that field is a
non-empty string, else the lower-cased first 50 characters of the issue
field; and placement appends the remark `" [Suggestion: ...]"` as a new
highlighted run on exactly the first matching paragraph, altering no other
paragraph. -/
theorem c5_annotate_first_matching_paragraph :
    (∀ (issue : Jdict) (s : String),
      dget? issue ("section") = some (.str s) → pyLower s ≠ "" →
      computeSnippet issue = some (pyLower s)) ∧
    (∀ (issue : Jdict) (t : String),
      (dget? issue ("section") = none ∨ dget? issue ("section") = some (.str (""))) →
      dget? issue ("issue") = some (.str t) →
      computeSnippet issue = some (pyLower (strTake 50 t))) ∧
    (∀ (paras : List DocxPara) (snippet comment : String) (i : Nat)
        (h : i < paras.length),
      snippet ≠ "" →
      strContains (pyLower (DocxPara.text (paras.get ⟨i, h⟩))) snippet = true →
      (∀ j (hj : j < paras.length), j < i →
        strContains (pyLower (DocxPara.text (paras.get ⟨j, hj⟩))) snippet = false) →
      issueStep paras snippet comment =
        paras.set i { runs := (paras.get ⟨i, h⟩).runs ++
          [{ text := " " ++ comment, highlight := true }] }) := by
  refine ⟨?_, ?_, ?_⟩
  · intro issue s hsec hne
    have hs : s ≠ "" := by
      intro he
      rw [he] at hne
      exact hne rfl
    have hsv : sectionVal issue = some s := by
      unfold sectionVal
      rw [hsec]
      simp [jsonTruthy, hs]
    unfold computeSnippet
    rw [hsv]
    simp [hne]
  · intro issue t hsec hiss
    have hiv : issueVal issue = some t := by
      unfold issueVal
      rw [hiss]
    have hsv : sectionVal issue = some ("") := by
      unfold sectionVal
      rcases hsec with hnone | hempty
      · rw [hnone]
      · rw [hempty]
        simp [jsonTruthy]
    unfold computeSnippet
    rw [hsv]
    simp [hiv]
    exact fun habs => absurd rfl habs
  · intro paras snippet comment i h hne hcont hbefore
    unfold issueStep
    rw [addRunToFirst_first_match snippet comment paras i h hne hcont hbefore]

/-- Claim C5 witness: the spec's placement example lands the remark on the
second paragraph. -/
theorem c5_annotate_first_matching_paragraph_witness :
    issueStep
        [{ runs := [{ text := "Section 1: Capital", highlight := false }] },
         { runs := [{ text := "Section 2: Directors", highlight := false }] }]
        ("directors") ("[Suggestion: Add signature]") =
      [{ runs := [{ text := "Section 1: Capital", highlight := false }] },
       { runs := [{ text := "Section 2: Directors", highlight := false },
                  { text := " [Suggestion: Add signature]", highlight := true }] }] := by
  have h := c5_annotate_first_matching_paragraph.2.2
      [{ runs := [{ text := "Section 1: Capital", highlight := false }] },
       { runs := [{ text := "Section 2: Directors", highlight := false }] }]
      ("directors") ("[Suggestion: Add signature]") 1 (by decide)
      (by decide) (by decide)
      (by
        intro j hj hlt
        have hj0 : j = 0 := Nat.lt_one_iff.mp hlt
        subst hj0
        show strContains (pyLower (DocxPara.text
          { runs := [{ text := "Section 1: Capital", highlight := false }] }))
          ("directors") = false
        decide)
  exact h.trans rfl

/-- Claim C6: when the snippet is empty or matches no paragraph, the
annotator appends one new trailing paragraph holding the remark alone, and
every pre-existing paragraph is left exactly as it was. -/
theorem c6_annotate_fallback_trailing (paras : List DocxPara) (snippet comment : String) :
    (snippet = "" ∨
      ∀ i (h : i < paras.length),
        strContains (pyLower (DocxPara.text (paras.get ⟨i, h⟩))) snippet = false) →
    issueStep paras snippet comment =
      paras ++ [{ runs := [{ text := comment, highlight := true }] }] := by
  intro hno
  unfold issueStep
  rw [addRunToFirst_eq_none snippet comment paras ?hall]
  case hall =>
    intro i h
    rcases hno with hempty | hnone
    · rw [hempty]
      simp
    · rw [hnone i h]
      simp

/-- Claim C6 witness: an unmatched snippet spawns exactly the trailing remark
paragraph. -/
theorem c6_annotate_fallback_trailing_witness :
    issueStep [{ runs := [{ text := "Hello", highlight := false }] }]
        ("zzz") ("[Suggestion: X]") =
      [{ runs := [{ text := "Hello", highlight := false }] },
       { runs := [{ text := "[Suggestion: X]", highlight := true }] }] := by
  have h := c6_annotate_fallback_trailing
      [{ runs := [{ text := "Hello", highlight := false }] }]
      ("zzz") ("[Suggestion: X]")
      (Or.inr (by
        intro i hi
        have hi0 : i = 0 := Nat.lt_one_iff.mp (by simpa using hi)
        subst hi0
        show strContains (pyLower (DocxPara.text
          { runs := [{ text := "Hello", highlight := false }] })) ("zzz") = false
        decide))
  exact h.trans rfl

/-- Indexing into an append within the left part. -/
theorem get_append_left' {α : Type} :
    ∀ (l1 l2 : List α) (i : Nat) (h : i < l1.length) (h2 : i < (l1 ++ l2).length),
      (l1 ++ l2).get ⟨i, h2⟩ = l1.get ⟨i, h⟩
  | a :: t, l2, 0, _, _ => rfl
  | a :: t, l2, i+1, h, h2 =>
    get_append_left' t l2 i (Nat.lt_of_succ_lt_succ h) (Nat.lt_of_succ_lt_succ h2)

/-- Paragraph preservation is reflexive. -/
theorem parasEvolve_refl (ps : List DocxPara) : ParasEvolve ps ps := by
  refine ⟨Nat.le_refl _, ?_⟩
  intro i h h2
  refine ⟨[], ?_⟩
  show DocxPara.text (ps.get ⟨i, h2⟩) = DocxPara.text (ps.get ⟨i, h⟩) ++ remarksSuffix []
  rw [show remarksSuffix [] = "" from rfl, str_append_empty]

/-- Paragraph preservation composes. -/
theorem parasEvolve_trans {a b c : List DocxPara} :
    ParasEvolve a b → ParasEvolve b c → ParasEvolve a c := by
  intro hab hbc
  refine ⟨Nat.le_trans hab.1 hbc.1, ?_⟩
  intro i h h2
  have hb : i < b.length := Nat.lt_of_lt_of_le h hab.1
  obtain ⟨l1, h1⟩ := hab.2 i h hb
  obtain ⟨l2, h2'⟩ := hbc.2 i hb h2
  exact ⟨l1 ++ l2, by rw [h2', h1, remarksSuffix_append, str_append_assoc]⟩

/-- One placement step preserves every pre-existing paragraph, extending at
most one of them by the remark suffix. -/
theorem parasEvolve_issueStep (ps : List DocxPara) (snippet x : String) :
    ParasEvolve ps (issueStep ps snippet ("[Suggestion: " ++ x ++ "]")) := by
  unfold issueStep
  cases hrec : addRunToFirst snippet ("[Suggestion: " ++ x ++ "]") ps with
  | none =>
    refine ⟨by simp, ?_⟩
    intro i h h2
    refine ⟨[], ?_⟩
    rw [get_append_left' ps _ i h h2]
    rw [show remarksSuffix [] = "" from rfl, str_append_empty]
  | some r =>
    have spec := addRunToFirst_some_spec snippet ("[Suggestion: " ++ x ++ "]") ps r hrec
    refine ⟨Nat.le_of_eq spec.1.symm, ?_⟩
    intro i h h2
    rcases spec.2 i h h2 with heq | happ
    · refine ⟨[], ?_⟩
      rw [heq, show remarksSuffix [] = "" from rfl, str_append_empty]
    · refine ⟨[x], ?_⟩
      calc DocxPara.text (r.get ⟨i, h2⟩)
          = DocxPara.text { runs := (ps.get ⟨i, h⟩).runs ++
              [{ text := " " ++ ("[Suggestion: " ++ x ++ "]"), highlight := true }] } :=
            congrArg (fun rs => DocxPara.text { runs := rs }) happ
        _ = DocxPara.text { runs := (ps.get ⟨i, h⟩).runs } ++
              (" " ++ ("[Suggestion: " ++ x ++ "]")) := paraText_append_run _ _
        _ = DocxPara.text (ps.get ⟨i, h⟩) ++ remarksSuffix [x] := by
            rw [remarksSuffix_single]

/-- The annotator's issue loop preserves the original paragraphs. -/
theorem annotateLoop_evolves :
    ∀ (issues : List Jdict) (ps res : List DocxPara),
      annotateLoop ps issues = some res → ParasEvolve ps res
  | [], ps, res, h => by
    cases h
    exact parasEvolve_refl ps
  | issue :: rest, ps, res, h => by
    unfold annotateLoop at h
    cases hsn : computeSnippet issue with
    | none =>
      rw [hsn] at h
      cases h
    | some snippet =>
      rw [hsn] at h
      have hstep : ParasEvolve ps (issueStep ps snippet (commentOf issue)) :=
        parasEvolve_issueStep ps snippet
          (pyStrOf ((dget? issue ("suggestion")).getD (.str (""))))
      exact parasEvolve_trans hstep (annotateLoop_evolves rest _ res h)

/-- Claim C10: whenever `annotate_docx_inline` completes, it never removes a
paragraph, keeps every pre-existing paragraph at its index, and the text of
each pre-existing paragraph is its original text extended by zero or more
appended `" [Suggestion: ...]"` remark suffixes. -/
theorem c10_annotate_preserves_originals
    (paras : List DocxPara) (json_review : Jdict) (out : List DocxPara) :
    annotate_docx_inline paras json_review = some out →
    paras.length ≤ out.length ∧
    ∀ i (h : i < paras.length) (h2 : i < out.length),
      ∃ l : List String,
        DocxPara.text (out.get ⟨i, h2⟩) =
          DocxPara.text (paras.get ⟨i, h⟩) ++ remarksSuffix l := by
  intro hann
  unfold annotate_docx_inline at hann
  cases hs : asIssueList ((dget? json_review ("issues")).getD (.arr [])) with
  | none =>
    rw [hs] at hann
    cases hann
  | some issues =>
    rw [hs] at hann
    exact annotateLoop_evolves issues paras out hann

/-- Claim C10 witness: a review mapping without an "issues" key leaves the
single-paragraph document unchanged, and the theorem yields the length bound. -/
theorem c10_annotate_preserves_originals_witness :
    annotate_docx_inline ([{ runs := [{ text := "Hello", highlight := false }] }]) [] =
      some ([{ runs := [{ text := "Hello", highlight := false }] }]) ∧
    List.length ([{ runs := [{ text := "Hello", highlight := false }] }] : List DocxPara) ≤
      List.length ([{ runs := [{ text := "Hello", highlight := false }] }] : List DocxPara) :=
  ⟨rfl, (c10_annotate_preserves_originals
      ([{ runs := [{ text := "Hello", highlight := false }] }]) []
      ([{ runs := [{ text := "Hello", highlight := false }] }]) rfl).1⟩

/-- Every issue tagged by `docIssues` carries its document's type in the
"document" field. -/
theorem docIssues_tagged (doc_type : String) (review : JsonValue) (tagged : List Jdict) :
    docIssues doc_type review = some tagged →
    ∀ it ∈ tagged, dget? it ("document") = some (.str doc_type) := by
  intro h it hit
  unfold docIssues at h
  cases review with
  | obj d0 =>
    replace h : (match asIssueList ((dget? d0 ("issues")).getD (.arr [])) with
        | none => none
        | some is => some (List.map (tagIssue doc_type) is)) = some tagged := h
    cases hs : asIssueList ((dget? d0 ("issues")).getD (.arr [])) with
    | none =>
      rw [hs] at h
      cases h
    | some is =>
      rw [hs] at h
      cases h
      obtain ⟨i0, hi0, heq⟩ := List.mem_map.mp hit
      rw [← heq]
      rfl
  | str s => cases h
  | num n => cases h
  | bool b => cases h
  | null => cases h
  | arr xs => cases h

/-- The orchestrator's fold equals per-document issue lists flattened in
upload order, with detected types classified in upload order and every
aggregated issue tagged with its source document's type. -/
theorem processBatch_spec :
    ∀ (docs : List (String × String)) (pr : List String × List Jdict),
      processBatch docs = some pr →
      pr.1 = docs.map (fun d => classify_document (some d.1)) ∧
      (∃ per : List (List Jdict), perDocLists docs = some per ∧ pr.2 = per.flatten) ∧
      (∀ it ∈ pr.2, ∃ d ∈ docs,
        dget? it ("document") = some (.str (classify_document (some d.1))))
  | [], pr, h => by
    cases h
    exact ⟨rfl, ⟨[], rfl, rfl⟩, fun it hit => absurd hit (List.not_mem_nil it)⟩
  | d :: rest, pr, h => by
    unfold processBatch at h
    cases hdoc : docIssues (classify_document (some d.1))
        (run_rag_review_post (classify_document (some d.1)) d.2) with
    | none =>
      rw [hdoc] at h
      cases h
    | some tagged =>
      rw [hdoc] at h
      cases hrest : processBatch rest with
      | none =>
        rw [hrest] at h
        cases h
      | some pr' =>
        rw [hrest] at h
        cases h
        have ih := processBatch_spec rest pr' hrest
        refine ⟨?_, ?_, ?_⟩
        · show classify_document (some d.1) :: pr'.1 = _
          rw [ih.1]
          rfl
        · obtain ⟨per, hper, hjoin⟩ := ih.2.1
          refine ⟨tagged :: per, ?_, ?_⟩
          · unfold perDocLists perDocIssues
            rw [hdoc, hper]
          · show tagged ++ pr'.2 = (tagged :: per).flatten
            rw [hjoin]
            rfl
        · intro it hit
          rcases List.mem_append.mp hit with hl | hr
          · exact ⟨d, List.mem_cons_self _ _,
              docIssues_tagged (classify_document (some d.1)) _ tagged hdoc it hl⟩
          · obtain ⟨d', hd', hfield⟩ := ih.2.2 it hr
            exact ⟨d', List.mem_cons_of_mem _ hd', hfield⟩

/-- Claim C7: whenever the batch loop completes, the report's `issues_found`
is the flattening, in document-upload order, of the per-document tagged
issue lists (each in reviewer order), and every flattened issue carries its
source document's classified type in its "document" field. -/
theorem c7_report_flattens_in_order (docs : List (String × String)) (r : Report) :
    buildReport docs = some r →
    (∃ per : List (List Jdict), perDocLists docs = some per ∧ r.issues_found = per.flatten) ∧
    (∀ it ∈ r.issues_found, ∃ d ∈ docs,
      dget? it ("document") = some (.str (classify_document (some d.1)))) := by
  intro h
  unfold buildReport at h
  cases hpb : processBatch docs with
  | none =>
    rw [hpb] at h
    cases h
  | some pr =>
    rw [hpb] at h
    cases h
    have spec := processBatch_spec docs pr hpb
    exact ⟨spec.2.1, spec.2.2⟩

/-- Claim C7 witness: a two-document batch whose report flattens the second
document's single tagged issue after the first document's empty list. -/
theorem c7_report_flattens_in_order_witness :
    ∃ r : Report, buildReport
        ([("articles of association", "no json"),
          ("memorandum of association",
            "\x7b\"issues\":[\x7b\"issue\":\"Missing clause\"\x7d]\x7d")]) = some r ∧
      ∃ per : List (List Jdict),
        perDocLists
          ([("articles of association", "no json"),
            ("memorandum of association",
              "\x7b\"issues\":[\x7b\"issue\":\"Missing clause\"\x7d]\x7d")]) = some per ∧
        r.issues_found = per.flatten := by
  refine ⟨{ process := "Company Incorporation", documents_uploaded := 2,
            required_documents := 5,
            missing_doc := some ("Incorporation Application Form"),
            issues_found := [[("document", .str ("Memorandum of Association")),
                              ("section", .str ("")), ("issue", .str ("Missing clause")),
                              ("severity", .str ("")), ("suggestion", .str (""))]] },
          rfl, ?_⟩
  exact (c7_report_flattens_in_order
      ([("articles of association", "no json"),
        ("memorandum of association",
          "\x7b\"issues\":[\x7b\"issue\":\"Missing clause\"\x7d]\x7d")])
      { process := "Company Incorporation", documents_uploaded := 2,
        required_documents := 5,
        missing_doc := some ("Incorporation Application Form"),
        issues_found := [[("document", .str ("Memorandum of Association")),
                          ("section", .str ("")), ("issue", .str ("Missing clause")),
                          ("severity", .str ("")), ("suggestion", .str (""))]] } rfl).1

/-- Claim C3 witness: the prose-wrapped JSON object of the spec's test is
located as the first balanced span and parsed. -/
theorem c3_extract_json_never_raises_witness :
    firstBraceSpan (String.data ("blah blah \x7b\"document\":\"X\",\"issues\":[]\x7d trailing")) =
      some (String.data ("\x7b\"document\":\"X\",\"issues\":[]\x7d")) ∧
    _extract_json_from_text ("blah blah \x7b\"document\":\"X\",\"issues\":[]\x7d trailing") =
      .obj [("document", .str ("X")), ("issues", .arr [])] :=
  ⟨rfl,
    (c3_extract_json_never_raises
        ("blah blah \x7b\"document\":\"X\",\"issues\":[]\x7d trailing")).2.2.2.1
      (String.data ("\x7b\"document\":\"X\",\"issues\":[]\x7d"))
      (.obj [("document", .str ("X")), ("issues", .arr [])]) rfl rfl⟩
